import Mathlib

/-!
Verification development for the panefit pane-layout library.

The Lean definitions below are a shallow embedding of the Python sources:

* `src/panefit/types.py` — data structures (`PaneData`, `PaneLayout`,
  `WindowLayout`, `RelevanceResult`, `LayoutStep`, `LayoutPlan`, enums);
* `src/panefit/layout.py` — `LayoutCalculator` (score combination,
  proportional sizing, the horizontal / vertical / tiled / related
  placements and the `calculate` dispatcher);
* `src/panefit/analyzer.py` — `Analyzer` (tokenizer, entropy, surprisal,
  activity detection, `analyze`, keyword relevance);
* `src/integrations/tmux/provider.py` — `TmuxProvider.plan_layout` and
  `_calculate_layout_checksum`.

Python floats are modelled exactly: score arithmetic in the layout module
is over `ℚ` (every constant in the source is a finite decimal), and the
analyzer, whose formulas use `log2` and `sqrt`, is over `ℝ`.  Python's
`sorted` is a stable sort, hence extensionally determined by the key; it
is embedded as `List.insertionSort` with the matching reflexive relation,
which is stable and structurally recursive (so concrete inputs evaluate).
-/

/-- Python `int(x)` applied to a float/rational: truncation toward zero. -/
def pyInt (q : ℚ) : ℤ :=
  if 0 ≤ q then ⌊q⌋ else ⌈q⌉

/-! ## types.py -/

/-- `LayoutStrategy` enum from `types.py`. -/
inductive LayoutStrategy where
  | importance
  | entropy
  | activity
  | balanced
  | related
deriving DecidableEq

/-- `LayoutType` enum from `types.py`. -/
inductive LayoutType where
  | auto
  | horizontal
  | vertical
  | tiled
deriving DecidableEq

/-- `PaneData` dataclass from `types.py`. -/
structure PaneData where
  id : String
  content : String
  width : ℤ
  height : ℤ
  x : ℤ
  y : ℤ
  active : Bool
  title : String
  command : String
deriving DecidableEq

/-- `PaneLayout` dataclass from `types.py`. -/
structure PaneLayout where
  id : String
  x : ℤ
  y : ℤ
  width : ℤ
  height : ℤ
deriving DecidableEq

/-- `WindowLayout` dataclass from `types.py`. -/
structure WindowLayout where
  window_width : ℤ
  window_height : ℤ
  panes : List PaneLayout
  strategy : LayoutStrategy
deriving DecidableEq

/-- `RelevanceResult` dataclass from `types.py`.  The source stores
`shared_keywords` as `list(shared)` built from a Python `set`; element
order of that list is unspecified, so the field is embedded as the set. -/
structure RelevanceResult where
  pane_id_1 : String
  pane_id_2 : String
  shared_keywords : Finset String
  jaccard_similarity : ℚ
  topic_similarity : ℚ
  combined_score : ℚ
deriving DecidableEq

/-- `LayoutOperation` enum from `types.py`. -/
inductive LayoutOperation where
  | swap
  | resize
  | move
  | join
  | brk
deriving DecidableEq

/-- `LayoutStep` dataclass from `types.py`. -/
structure LayoutStep where
  operation : LayoutOperation
  pane_id : String
  target_id : Option String
  width : Option ℤ
  height : Option ℤ
  vertical : Bool
deriving DecidableEq

/-- `LayoutPlan` dataclass from `types.py` (`target` is always set by
`plan_layout`, so it is embedded as a plain field). -/
structure LayoutPlan where
  steps : List LayoutStep
  target : WindowLayout
deriving DecidableEq

/-! ## layout.py -/

/-- The three fields of an `AnalysisResult` that `layout.py` reads
(`importance_score`, `interestingness_score`, `recent_activity_score`),
as exact rationals. -/
structure AnalysisScores where
  importance_score : ℚ
  interestingness_score : ℚ
  recent_activity_score : ℚ
deriving DecidableEq

/-- `PaneScore` dataclass from `layout.py`. -/
structure PaneScore where
  id : String
  importance : ℚ
  interestingness : ℚ
  activity : ℚ
  combined : ℚ
deriving DecidableEq

instance : Inhabited PaneScore := ⟨⟨"", 0, 0, 0, 0⟩⟩

/-- The per-pane loop body of `LayoutCalculator._calculate_scores`: look up
the analysis (defaulting all three scores to 0.5), boost an active pane's
importance by 0.2 capped at 1, and combine according to the strategy.  The
`related` arm is the function's final `else` arm (plain average). -/
def score_entry (strategy : LayoutStrategy) (analyses : String → Option AnalysisScores)
    (pane : PaneData) : PaneScore :=
  let t : ℚ × ℚ × ℚ :=
    match analyses pane.id with
    | some a => (a.importance_score, a.interestingness_score, a.recent_activity_score)
    | none => (0.5, 0.5, 0.5)
  let importance := if pane.active then min 1 (t.1 + 0.2) else t.1
  let interestingness := t.2.1
  let activity := t.2.2
  let combined : ℚ :=
    match strategy with
    | .importance => importance
    | .entropy => interestingness
    | .activity => activity
    | .balanced => 0.4 * importance + 0.3 * interestingness + 0.3 * activity
    | .related => (importance + interestingness + activity) / 3
  ⟨pane.id, importance, interestingness, activity, combined⟩

/-- The score-building loop of `LayoutCalculator._calculate_scores`, before
normalization. -/
def calculate_scores_raw (strategy : LayoutStrategy) (panes : List PaneData)
    (analyses : String → Option AnalysisScores) : List PaneScore :=
  panes.map (score_entry strategy analyses)

/-- The normalization step of `LayoutCalculator._calculate_scores`: divide
every combined score by the total when the total is positive. -/
def normalize_scores (scores : List PaneScore) : List PaneScore :=
  let total := (scores.map (·.combined)).sum
  if 0 < total then
    scores.map (fun s => ⟨s.id, s.importance, s.interestingness, s.activity, s.combined / total⟩)
  else scores

/-- `LayoutCalculator._calculate_scores`. -/
def calculate_scores (strategy : LayoutStrategy) (panes : List PaneData)
    (analyses : String → Option AnalysisScores) : List PaneScore :=
  normalize_scores (calculate_scores_raw strategy panes analyses)

/-- Python `max(range(len(l)), key=lambda i: l[i])`: the first index holding
the maximum (Python's `max` replaces the best only on a strict increase). -/
def argmax_idx (l : List ℚ) : ℕ :=
  (List.range l.length).foldl (fun best i => if l.getD best 0 < l.getD i 0 then i else best) 0

/-- `LayoutCalculator._proportional_sizes`. -/
def proportional_sizes (scores : List PaneScore) (total_size min_size : ℤ) : List ℤ :=
  let n := scores.length
  if n = 0 then []
  else if n = 1 then [total_size]
  else
    let min_total := min_size * n
    if total_size ≤ min_total then
      List.replicate n (Int.fdiv total_size n)
    else
      let remaining := total_size - min_total
      let sizes := scores.map (fun s => min_size + pyInt ((remaining : ℚ) * s.combined))
      let diff := total_size - sizes.sum
      if diff ≠ 0 then
        let max_idx := argmax_idx (scores.map (·.combined))
        sizes.set max_idx (sizes.getD max_idx 0 + diff)
      else sizes

/-- Python `sorted(scores, key=lambda s: s.combined, reverse=True)`:
the stable descending sort by combined score.  `insertionSort` with the
reflexive relation "a's key ≥ b's key" is stable and descending, hence
extensionally equal to Python's stable sort. -/
def sort_scores_desc (scores : List PaneScore) : List PaneScore :=
  scores.insertionSort (fun a b => b.combined ≤ a.combined)

/-- The placement loop shared by `_layout_vertical` and the side column of
`_layout_tiled`: stack panes at a fixed x with a fixed width, accumulating y. -/
def place_column (x width : ℤ) : List PaneScore → List ℤ → ℤ → List PaneLayout
  | s :: ss, h :: hs, y => ⟨s.id, x, y, width, h⟩ :: place_column x width ss hs (y + h)
  | _, _, _ => []

/-- The placement loop of `_layout_horizontal`: panes side by side at y = 0
with full window height, accumulating x. -/
def place_row (height : ℤ) : List PaneScore → List ℤ → ℤ → List PaneLayout
  | s :: ss, w :: ws, x => ⟨s.id, x, 0, w, height⟩ :: place_row height ss ws (x + w)
  | _, _, _ => []

/-- `LayoutCalculator._layout_horizontal`. -/
def layout_horizontal (min_width : ℤ) (scores : List PaneScore)
    (window_width window_height : ℤ) : List PaneLayout :=
  let sorted_scores := sort_scores_desc scores
  let widths := proportional_sizes sorted_scores window_width min_width
  place_row window_height sorted_scores widths 0

/-- `LayoutCalculator._layout_vertical`. -/
def layout_vertical (min_height : ℤ) (scores : List PaneScore)
    (window_width window_height : ℤ) : List PaneLayout :=
  let sorted_scores := sort_scores_desc scores
  let heights := proportional_sizes sorted_scores window_height min_height
  place_column 0 window_width sorted_scores heights 0

/-- `GOLDEN_RATIO = 1.618` from `layout.py`. -/
def golden_ratio : ℚ := 1.618

/-- `LayoutCalculator._layout_tiled`. -/
def layout_tiled (min_width min_height : ℤ) (scores : List PaneScore)
    (window_width window_height : ℤ) : List PaneLayout :=
  if scores.length ≤ 1 then layout_horizontal min_width scores window_width window_height
  else
    let sorted_scores := sort_scores_desc scores
    let main_width := pyInt ((window_width : ℚ) / golden_ratio)
    let side_width := window_width - main_width
    let main : PaneLayout := ⟨sorted_scores.headI.id, 0, 0, main_width, window_height⟩
    let side_scores := sorted_scores.tail
    let heights := proportional_sizes side_scores window_height min_height
    main :: place_column main_width side_width side_scores heights 0

/-- The relevance matrix: a Python dict keyed by id pairs, embedded as the
list of assignments in insertion order. -/
abbrev RelMatrix := List ((String × String) × RelevanceResult)

/-- Python dict lookup (`d.get(k)`): the value of the last assignment to the
key, if any. -/
def dict_get (m : RelMatrix) (k : String × String) : Option RelevanceResult :=
  ((m.filter (fun e => decide (e.1 = k))).getLast?).map (·.2)

/-- `LayoutCalculator._layout_related`. -/
def layout_related (min_width min_height : ℤ) (scores : List PaneScore)
    (relevance_matrix : RelMatrix) (window_width window_height : ℤ) : List PaneLayout :=
  if scores.length ≤ 2 then layout_tiled min_width min_height scores window_width window_height
  else
    let sorted_scores := sort_scores_desc scores
    let main_pane := sorted_scores.headI
    let related_scores := sorted_scores.tail.map (fun s =>
      let rel := (dict_get relevance_matrix (main_pane.id, s.id)).or
        (dict_get relevance_matrix (s.id, main_pane.id))
      (s, match rel with | some r => r.combined_score | none => 0))
    let related_sorted := related_scores.insertionSort (fun a b => b.2 ≤ a.2)
    let reordered := main_pane :: related_sorted.map (·.1)
    layout_tiled min_width min_height reordered window_width window_height

/-- Python truthiness of the optional `relevance_matrix` argument: a dict is
truthy iff it is present and non-empty. -/
def matrix_truthy : Option RelMatrix → Bool
  | none => false
  | some m => !m.isEmpty

/-- `LayoutCalculator.calculate`.  The strategy and the configured minimum
sizes are the constructor state of `LayoutCalculator`; they are passed
explicitly. -/
def calculate (strategy : LayoutStrategy) (min_width min_height : ℤ)
    (panes : List PaneData) (analyses : String → Option AnalysisScores)
    (window_width window_height : ℤ)
    (relevance_matrix : Option RelMatrix) (layout_type : LayoutType) : WindowLayout :=
  let scores := calculate_scores strategy panes analyses
  let layouts :=
    if layout_type = .horizontal then
      layout_horizontal min_width scores window_width window_height
    else if layout_type = .vertical then
      layout_vertical min_height scores window_width window_height
    else if layout_type = .tiled then
      layout_tiled min_width min_height scores window_width window_height
    else if strategy = .related ∧ matrix_truthy relevance_matrix then
      layout_related min_width min_height scores (relevance_matrix.getD [])
        window_width window_height
    else
      if panes.length = 2 then
        if 1.5 < (window_width : ℚ) / (window_height : ℚ) then
          layout_horizontal min_width scores window_width window_height
        else
          layout_vertical min_height scores window_width window_height
      else
        layout_tiled min_width min_height scores window_width window_height
  ⟨window_width, window_height, layouts, strategy⟩

/-! ## integrations/tmux/provider.py -/

/-- Python `sorted(panes, key=lambda p: (p.y, p.x))`: stable ascending sort
by the (y, x) tuple key. -/
def sort_panes_by_pos (panes : List PaneData) : List PaneData :=
  panes.insertionSort (fun a b => a.y < b.y ∨ (a.y = b.y ∧ a.x ≤ b.x))

/-- Python `sorted(layout.panes, key=lambda p: (p.y, p.x))`. -/
def sort_pane_layouts_by_pos (panes : List PaneLayout) : List PaneLayout :=
  panes.insertionSort (fun a b => a.y < b.y ∨ (a.y = b.y ∧ a.x ≤ b.x))

/-- The in-place double assignment
`working_order[i], working_order[j] = working_order[j], working_order[i]`. -/
def swapIdx (w : List String) (i j : ℕ) : List String :=
  (w.set i (w.getD j "")).set j (w.getD i "")

/-- The swap-planning loop of `TmuxProvider.plan_layout`: walk the target
order left to right (`i` is the loop index); when position `i` holds the
wrong pane, locate the wanted pane and swap positions `i` and `j`, recording
the two pane ids actually exchanged; a pane id absent from the working order
is skipped (`except ValueError`).  Returns the final working order and the
recorded swaps. -/
def plan_swaps : List String → ℕ → List String → List String × List (String × String)
  | [], _, w => (w, [])
  | t :: ts, i, w =>
    if w.length ≤ i then (w, [])
    else
      let c := w.getD i ""
      if c = t then plan_swaps ts (i + 1) w
      else if t ∈ w then
        let j := List.indexOf t w
        let r := plan_swaps ts (i + 1) (swapIdx w i j)
        (r.1, (c, t) :: r.2)
      else plan_swaps ts (i + 1) w

/-- `TmuxProvider.plan_layout`, as a function of the current pane snapshot
(the result of `get_panes`, the provider's I/O boundary) and the target
layout. -/
def plan_layout (current_panes : List PaneData) (layout : WindowLayout) : LayoutPlan :=
  if current_panes.isEmpty then ⟨[], layout⟩
  else
    let current_order := (sort_panes_by_pos current_panes).map (·.id)
    let target_order := (sort_pane_layouts_by_pos layout.panes).map (·.id)
    let swaps := (plan_swaps target_order 0 current_order).2
    let swap_steps := swaps.map (fun s =>
      (⟨.swap, s.1, some s.2, none, none, false⟩ : LayoutStep))
    let resize_steps := layout.panes.map (fun p =>
      (⟨.resize, p.id, none, some p.width, some p.height, false⟩ : LayoutStep))
    ⟨swap_steps ++ resize_steps, layout⟩

/-- The effect of one recorded `Swap` step on a pane ordering: `tmux
swap-pane -s a -t b` exchanges the positions of panes `a` and `b` (a no-op
when either pane is missing). -/
def apply_swap (w : List String) (s : String × String) : List String :=
  if s.1 ∈ w ∧ s.2 ∈ w then swapIdx w (List.indexOf s.1 w) (List.indexOf s.2 w) else w

/-- `TmuxProvider._calculate_layout_checksum`, accumulator step for one
character: `csum = (csum >> 1) + ((csum & 1) << 15); csum += ord(c);
csum &= 0xffff`. -/
def csum_step (csum : ℕ) (c : Char) : ℕ :=
  ((csum >>> 1) + ((csum &&& 1) <<< 15) + c.toNat) &&& 0xffff

/-- One hex digit, lowercase. -/
def hex_digit (n : ℕ) : Char :=
  "0123456789abcdef".toList.getD n '0'

/-- Python `f"{n:04x}"` for `n < 16^4`: four lowercase zero-padded hex
digits. -/
def to_hex4 (n : ℕ) : String :=
  String.mk [hex_digit (n / 4096 % 16), hex_digit (n / 256 % 16),
    hex_digit (n / 16 % 16), hex_digit (n % 16)]

/-- `TmuxProvider._calculate_layout_checksum`. -/
def calculate_layout_checksum (pane_strs : List String) : String :=
  let layout_str := String.intercalate "," pane_strs
  to_hex4 (layout_str.toList.foldl csum_step 0)

/-- Modelled from the spec (reference recurrence for the layout checksum,
section 6): a 16-bit accumulator starting at 0, updated per character as
`csum = ((csum >> 1) | ((csum & 1) << 15)); csum = (csum + charCode) &
0xFFFF`, over the comma-joined descriptor string. -/
def spec_csum_step (csum : ℕ) (c : Char) : ℕ :=
  (((csum >>> 1) ||| ((csum &&& 1) <<< 15)) + c.toNat) &&& 0xffff

/-- Modelled from the spec: the reference checksum, formatted as lowercase
zero-padded 4-digit hex. -/
def spec_checksum (layout_str : String) : String :=
  to_hex4 (layout_str.toList.foldl spec_csum_step 0)

/-! ## analyzer.py -/

/-- `Analyzer.CODE_KEYWORDS`. -/
def code_keywords : List String :=
  ["function", "def", "class", "import", "from", "return", "if", "else",
   "for", "while", "try", "except", "catch", "throw", "async", "await",
   "const", "let", "var", "public", "private", "static", "void", "int",
   "string", "bool", "true", "false", "null", "none", "self", "this",
   "error", "warning", "debug", "info", "log", "test", "spec", "describe"]

/-- `Analyzer.STOP_WORDS`. -/
def stop_words : List String :=
  ["the", "a", "an", "is", "are", "was", "were", "be", "been",
   "being", "have", "has", "had", "do", "does", "did", "will",
   "would", "could", "should", "may", "might", "can", "to", "of",
   "in", "for", "on", "with", "at", "by", "from", "as", "or",
   "and", "but", "not", "no", "so", "if", "it", "its", "this",
   "that", "these", "those", "then", "than", "when", "where"]

/-- A regex `\w` character (word character): alphanumeric or underscore. -/
def is_word_char (c : Char) : Bool :=
  c.isAlphanum || c == '_'

/-- A Python `str` whitespace character (`\s`). -/
def py_is_space (c : Char) : Bool :=
  c == ' ' || c == '\t' || c == '\n' || c == '\r' || c == '\x0b' || c == '\x0c'

/-- `Analyzer._tokenize`: lower-case, replace every non-word non-space
character by a space (`re.sub`), split on whitespace, keep tokens longer
than one character.  Net effect: the maximal runs of word characters of the
lowered text, filtered by length. -/
def tokenize (text : String) : List String :=
  ((text.toList.map Char.toLower).splitOnP (fun c => !is_word_char c)).filterMap
    (fun t => if 1 < t.length then some (String.mk t) else none)

/-- Python `text.strip()` on a character list. -/
def py_strip (l : List Char) : List Char :=
  ((l.dropWhile py_is_space).reverse.dropWhile py_is_space).reverse

/-- `text.strip().split('\n')` as used by `analyze` and `_detect_activity`. -/
def py_lines (content : String) : List (List Char) :=
  (py_strip content.toList).splitOn '\n'

/-- One command pattern `^cmd\s`: the literal followed by a whitespace
character at the start of the line. -/
def starts_cmd (cmd : List Char) (l : List Char) : Bool :=
  cmd.isPrefixOf l &&
    (match l.drop cmd.length with
     | c :: _ => py_is_space c
     | [] => false)

/-- The pattern `^\[\d+\]` (job control).  With backtracking, `\d+` followed
by `]` succeeds iff the maximal digit run is non-empty and followed by `]`. -/
def job_control (l : List Char) : Bool :=
  match l with
  | '[' :: rest =>
    let ds := rest.takeWhile Char.isDigit
    !ds.isEmpty && ((rest.drop ds.length).headD ' ' == ']')
  | _ => false

/-- `re.search(pattern, line)` over `Analyzer.ACTIVITY_PATTERNS`, in source
order. -/
def matches_activity (l : List Char) : Bool :=
  starts_cmd ['$'] l || starts_cmd ['>'] l || job_control l ||
  starts_cmd "npm".toList l || starts_cmd "yarn".toList l || starts_cmd "pnpm".toList l ||
  starts_cmd "git".toList l ||
  starts_cmd "docker".toList l || starts_cmd "kubectl".toList l ||
  starts_cmd "python".toList l || starts_cmd "node".toList l || starts_cmd "ruby".toList l ||
  starts_cmd "make".toList l || starts_cmd "cargo".toList l || starts_cmd "go".toList l

/-- `Analyzer._calculate_entropy`: Shannon entropy (base 2) of the frequency
distribution.  `Counter(items)` has one key per distinct item (`dedup`),
with value `items.count` of it; the `count > 0` guard is the source's. -/
noncomputable def calculate_entropy {α : Type} [DecidableEq α] (items : List α) : ℝ :=
  if items.isEmpty then 0
  else
    (items.dedup.map (fun x =>
      let cnt := items.count x
      let prob : ℝ := (cnt : ℝ) / (items.length : ℝ)
      if 0 < cnt then -(prob * Real.logb 2 prob) else 0)).sum

/-- The length-`k` context starting at position `i` of the word list
(`tuple(words[i:i + k])`). -/
def ngram_context (words : List String) (k i : ℕ) : List String :=
  (words.drop i).take k

/-- The word following context position `i` (`words[i + k]`). -/
def ngram_next (words : List String) (k i : ℕ) : String :=
  words.getD (i + k) ""

/-- `sum(context_counts[ctx].values())`: how many positions share the given
context.  The dict `context_counts` of `_calculate_surprisal` is built over
all positions `range(len(words) - k)`, so a key's total is the number of
positions with that context, and a context is a key iff this is positive. -/
def context_total (words : List String) (k : ℕ) (ctx : List String) : ℕ :=
  ((List.range (words.length - k)).filter
    (fun j => decide (ngram_context words k j = ctx))).length

/-- `context_counts[ctx][w]`: how many positions have the given context
followed by the given word. -/
def context_word_count (words : List String) (k : ℕ) (ctx : List String) (w : String) : ℕ :=
  ((List.range (words.length - k)).filter
    (fun j => decide (ngram_context words k j = ctx ∧ ngram_next words k j = w))).length

/-- `Analyzer._calculate_surprisal`. -/
noncomputable def calculate_surprisal (ngram_size : ℕ) (text : String) : ℝ :=
  let words := tokenize text
  if words.length < ngram_size + 1 then 0.5
  else
    let positions := (List.range (words.length - ngram_size)).filter
      (fun i => decide (0 < context_total words ngram_size (ngram_context words ngram_size i)))
    let terms := positions.map (fun i =>
      let ctx := ngram_context words ngram_size i
      let total := context_total words ngram_size ctx
      let c := context_word_count words ngram_size ctx (ngram_next words ngram_size i)
      let word_cnt := if c = 0 then 1 else c
      let prob : ℝ := (word_cnt : ℝ) / (total : ℝ)
      if 0 < prob then -Real.logb 2 prob else 10)
    if positions.length = 0 then 0.5
    else min 1 ((terms.sum / (positions.length : ℝ)) / 10)

/-- `Analyzer._detect_activity`. -/
noncomputable def detect_activity (content : String) : ℝ :=
  let lines := py_lines content
  if lines.isEmpty then 0
  else
    let recent_lines := lines.drop (lines.length - 20)
    let pattern_hits := recent_lines.countP matches_activity
    let non_empty_recent := recent_lines.countP (fun l => !(py_strip l).isEmpty)
    min 1 (0.1 * (pattern_hits : ℝ) + (non_empty_recent : ℝ) * 0.02)

/-- `AnalysisResult` dataclass from `types.py` (the heuristic fields filled
by `Analyzer.analyze`; the optional LLM fields are not touched by the code
under study). -/
structure AnalysisResult where
  pane_id : String
  char_entropy : ℝ
  word_entropy : ℝ
  word_count : ℕ
  line_count : ℕ
  char_count : ℕ
  unique_word_ratio : ℝ
  vocabulary_richness : ℝ
  avg_word_length : ℝ
  surprisal_score : ℝ
  recent_activity_score : ℝ
  importance_score : ℝ
  interestingness_score : ℝ
  content_hash : String

/-- `Analyzer.analyze`.  The per-instance state `self._content_history` is
passed in and returned explicitly (a pane id is a key of the Python dict iff
its list is non-empty — entries are only created non-empty).  The MD5-based
`_content_hash` is external library code, abstracted as the `hash_fn`
parameter; no claim depends on its internals. -/
noncomputable def analyze (hash_fn : String → String) (ngram_size : ℕ)
    (content_history : String → List String) (content : String) (pane_id : String) :
    AnalysisResult × (String → List String) :=
  let words := tokenize content
  if words.isEmpty then
    (⟨pane_id, 0, 0, 0, 0, content.length, 0, 0, 0, 0, 0, 0, 0, hash_fn content⟩,
     content_history)
  else
    let chars := content.toList
    let lines := py_lines content
    let char_entropy := calculate_entropy chars
    let word_entropy := calculate_entropy words
    let line_count := lines.length
    let word_count := words.length
    let char_count := content.length
    let unique_words := words.dedup
    let unique_word_ratio : ℝ := (unique_words.length : ℝ) / (word_count : ℝ)
    let avg_word_length : ℝ := ((words.map String.length).sum : ℝ) / (word_count : ℝ)
    let vocabulary_richness : ℝ := (unique_words.length : ℝ) / Real.sqrt (word_count : ℝ)
    let activity_score := detect_activity content
    let surprisal_score := calculate_surprisal ngram_size content
    let code_keyword_ratio : ℝ :=
      ((unique_words.filter (fun w => decide (w ∈ code_keywords))).length : ℝ)
        / (max unique_words.length 1 : ℕ)
    let content_hash := hash_fn content
    let change_score : ℝ :=
      if pane_id ≠ "" ∧ content_history pane_id ≠ [] ∧
          (content_history pane_id).getLast? ≠ some content_hash then 0.3 else 0
    let new_history : String → List String :=
      if pane_id ≠ "" then
        fun p =>
          if p = pane_id then
            let appended := content_history pane_id ++ [content_hash]
            appended.drop (appended.length - 10)
          else content_history p
      else content_history
    let importance_score : ℝ := min 1 (
      0.2 * min 1 ((word_count : ℝ) / 500) +
      0.2 * activity_score +
      0.15 * unique_word_ratio +
      0.15 * code_keyword_ratio +
      0.15 * change_score +
      0.15 * min 1 (char_entropy / 5))
    let entropy_interestingness : ℝ := max 0 (1 - |char_entropy - 4| / 4)
    let interestingness_score : ℝ := min 1 (
      0.25 * surprisal_score +
      0.25 * entropy_interestingness +
      0.25 * (vocabulary_richness / 10) +
      0.25 * activity_score)
    (⟨pane_id, char_entropy, word_entropy, word_count, line_count, char_count,
      unique_word_ratio, vocabulary_richness, avg_word_length,
      surprisal_score, activity_score, importance_score, interestingness_score,
      content_hash⟩,
     new_history)

/-- `Analyzer._extract_keywords`: `Counter(words).most_common(top_n * 2)` is
the stable descending sort by count of the distinct words (insertion order,
hence first occurrence, breaks ties) truncated to `top_n * 2`; stop words
are then filtered out and the first `top_n` kept. -/
def extract_keywords (top_n : ℕ) (text : String) : List String :=
  let words := tokenize text
  let ordered := words.dedup.insertionSort (fun a b => words.count b ≤ words.count a)
  ((ordered.take (top_n * 2)).filter (fun w => decide (w ∉ stop_words))).take top_n

/-- `Analyzer.calculate_relevance`. -/
def calculate_relevance (content1 content2 id1 id2 : String) : RelevanceResult :=
  let keywords1 := (extract_keywords 20 content1).toFinset
  let keywords2 := (extract_keywords 20 content2).toFinset
  let shared := keywords1 ∩ keywords2
  let u := keywords1 ∪ keywords2
  let jaccard : ℚ := if u.Nonempty then (shared.card : ℚ) / (u.card : ℚ) else 0
  let words1 := (tokenize content1).toFinset
  let words2 := (tokenize content2).toFinset
  let word_jaccard : ℚ :=
    if (words1 ∪ words2).Nonempty then
      ((words1 ∩ words2).card : ℚ) / ((words1 ∪ words2).card : ℚ)
    else 0
  let code_words1 := words1 ∩ code_keywords.toFinset
  let code_words2 := words2 ∩ code_keywords.toFinset
  let topic_similarity : ℚ :=
    if code_words1.Nonempty ∧ code_words2.Nonempty then
      ((code_words1 ∩ code_words2).card : ℚ) / ((code_words1 ∪ code_words2).card : ℚ)
    else if ¬code_words1.Nonempty ∧ ¬code_words2.Nonempty then 0.5
    else 0
  let combined := 0.4 * jaccard + 0.3 * word_jaccard + 0.3 * topic_similarity
  ⟨id1, id2, shared, jaccard, topic_similarity, combined⟩

/-- The index pairs `i < j` visited by the double loop of
`build_relevance_matrix`, in loop order (row-major). -/
def all_pairs : List PaneData → List (PaneData × PaneData)
  | [] => []
  | p :: rest => rest.map (fun q => (p, q)) ++ all_pairs rest

/-- `Analyzer.build_relevance_matrix`: for every pair `i < j`, assign the
pair's result under both key orderings. -/
def build_relevance_matrix (panes : List PaneData) : RelMatrix :=
  (all_pairs panes).flatMap (fun pq =>
    let r := calculate_relevance pq.1.content pq.2.content pq.1.id pq.2.id
    [((pq.1.id, pq.2.id), r), ((pq.2.id, pq.1.id), r)])

/-! ## Helper lemmas -/

theorem pyInt_nonneg {q : ℚ} (h : 0 ≤ q) : 0 ≤ pyInt q := by
  unfold pyInt
  rw [if_pos h]
  exact Int.floor_nonneg.mpr h

theorem pyInt_cast_le {q : ℚ} (h : 0 ≤ q) : (pyInt q : ℚ) ≤ q := by
  unfold pyInt
  rw [if_pos h]
  exact Int.floor_le q

theorem foldl_argmax_lt {n : ℕ} (l : List ℚ) :
    ∀ (is : List ℕ) (b : ℕ), (∀ i ∈ is, i < n) → b < n →
      is.foldl (fun best i => if l.getD best 0 < l.getD i 0 then i else best) b < n := by
  intro is
  induction is with
  | nil => intro b _ hb; simpa using hb
  | cons i t ih =>
    intro b hmem hb
    simp only [List.foldl_cons]
    by_cases hlt : l.getD b 0 < l.getD i 0
    · rw [if_pos hlt]
      exact ih i (fun j hj => hmem j (List.mem_cons_of_mem i hj)) (hmem i (List.mem_cons_self i t))
    · rw [if_neg hlt]
      exact ih b (fun j hj => hmem j (List.mem_cons_of_mem i hj)) hb

theorem argmax_idx_lt_length {l : List ℚ} (h : l ≠ []) : argmax_idx l < l.length := by
  have hl : 0 < l.length := List.length_pos.mpr h
  exact foldl_argmax_lt l (List.range l.length) 0 (fun i hi => List.mem_range.mp hi) hl

theorem sum_set_getD_add (l : List ℤ) :
    ∀ i : ℕ, i < l.length → ∀ d : ℤ, (l.set i (l.getD i 0 + d)).sum = l.sum + d := by
  induction l with
  | nil => intro i h; simp at h
  | cons a t ih =>
    intro i h d
    cases i with
    | zero => simp [List.sum_cons]; ring
    | succ i =>
      have hi : i < t.length := by simpa using h
      simp only [List.getD_cons_succ, List.set_cons_succ, List.sum_cons]
      rw [ih i hi d]
      ring

theorem sum_map_pyInt_le (rem : ℤ) (hrem : 0 ≤ rem) :
    ∀ l : List PaneScore, (∀ s ∈ l, 0 ≤ s.combined) →
      (((l.map (fun s => pyInt ((rem : ℚ) * s.combined))).sum : ℤ) : ℚ)
        ≤ (rem : ℚ) * (l.map (·.combined)).sum := by
  intro l
  induction l with
  | nil => simp
  | cons c t ih =>
    intro hc
    have hc0 : 0 ≤ c.combined := hc c (List.mem_cons_self c t)
    have hrc : (0 : ℚ) ≤ (rem : ℚ) * c.combined :=
      mul_nonneg (by exact_mod_cast hrem) hc0
    simp only [List.map_cons, List.sum_cons, mul_add, Int.cast_add]
    exact add_le_add (pyInt_cast_le hrc) (ih (fun x hx => hc x (List.mem_cons_of_mem c hx)))

/-! ## Claim C1 -/

/-- C1, counterexample: with two panes, `total = 5` and `min = 3` the
even-split branch of `_proportional_sizes` returns `[5 // 2, 5 // 2] =
[2, 2]`, whose sum is 4, not the required 5 — the claim's unconditional
"sum is exactly total" fails (only the `≥ min` clause is exempted by
`n·min > total`). -/
theorem c1_counterexample :
    ¬ (proportional_sizes [⟨"a", 1, 1, 1, 0.5⟩, ⟨"b", 1, 1, 1, 0.5⟩] 5 3).sum = 5 := by
  decide

/-- C1, amended: for pane scores that are non-negative and sum to at most 1
(the invariant of the normalized combined scores fed to
`_proportional_sizes`), with `total > 0` and `min ≥ 0`: one integer size is
returned per score; the sum is exactly `total` whenever `n = 1` or
`n·min < total`; when `n ≥ 2` and `n·min ≥ total` the result degrades to the
even split `total // n` per pane (whose sum is `n·(total // n)`, equal to
`total` only when `n` divides `total`); and every size is `≥ min` unless
`n·min > total`. -/
theorem c1_proportional_sizes (scores : List PaneScore) (total_size min_size : ℤ)
    (hne : scores ≠ []) (hpos : 0 < total_size) (hmin : 0 ≤ min_size)
    (hnn : ∀ s ∈ scores, 0 ≤ s.combined)
    (hsum : (scores.map (·.combined)).sum ≤ 1) :
    (proportional_sizes scores total_size min_size).length = scores.length ∧
    (min_size * (scores.length : ℤ) < total_size ∨ scores.length = 1 →
      (proportional_sizes scores total_size min_size).sum = total_size) ∧
    (2 ≤ scores.length → total_size ≤ min_size * (scores.length : ℤ) →
      proportional_sizes scores total_size min_size
        = List.replicate scores.length (Int.fdiv total_size (scores.length : ℤ))) ∧
    (min_size * (scores.length : ℤ) ≤ total_size →
      ∀ z ∈ proportional_sizes scores total_size min_size, min_size ≤ z) := by
  have h0 : scores.length ≠ 0 := fun h => hne (List.length_eq_zero.mp h)
  by_cases h1 : scores.length = 1
  · have hdef : proportional_sizes scores total_size min_size = [total_size] := by
      simp [proportional_sizes, h0, h1]
    rw [hdef]
    refine ⟨by simp [h1], by simp, fun h2 _ => by omega, fun hle z hz => ?_⟩
    rw [List.mem_singleton] at hz
    subst hz
    rw [h1] at hle
    simpa using hle
  · by_cases h2 : total_size ≤ min_size * (scores.length : ℤ)
    · have hdef : proportional_sizes scores total_size min_size
          = List.replicate scores.length (Int.fdiv total_size (scores.length : ℤ)) := by
        simp [proportional_sizes, h0, h1, h2]
      rw [hdef]
      refine ⟨by simp, fun hc => by omega, fun _ _ => rfl, fun hle z hz => ?_⟩
      have heq : total_size = min_size * (scores.length : ℤ) := le_antisymm h2 hle
      rw [List.eq_of_mem_replicate hz, heq,
        Int.mul_fdiv_cancel min_size (by exact_mod_cast h0)]
    · -- proportional branch
      have h2' : min_size * (scores.length : ℤ) < total_size := lt_of_not_le h2
      set rem : ℤ := total_size - min_size * (scores.length : ℤ) with hrem_def
      have hrem : 0 ≤ rem := by omega
      set sizes0 := scores.map (fun s => min_size + pyInt ((rem : ℚ) * s.combined))
        with hsizes0
      have hlen0 : sizes0.length = scores.length := by simp [hsizes0]
      have hmem0 : ∀ z ∈ sizes0, min_size ≤ z := by
        intro z hz
        rw [hsizes0, List.mem_map] at hz
        obtain ⟨s, hs, rfl⟩ := hz
        have : 0 ≤ pyInt ((rem : ℚ) * s.combined) :=
          pyInt_nonneg (mul_nonneg (by exact_mod_cast hrem) (hnn s hs))
        omega
      have hsum0 : sizes0.sum ≤ total_size := by
        have hadd : (scores.map (fun s => min_size + pyInt ((rem : ℚ) * s.combined))).sum
            = (scores.map (fun _ => min_size)).sum
              + (scores.map (fun s => pyInt ((rem : ℚ) * s.combined))).sum :=
          List.sum_map_add
        have hconst : (scores.map (fun _ : PaneScore => min_size)).sum
            = min_size * (scores.length : ℤ) := by
          simp [List.map_const', mul_comm]
        have hle : (((scores.map (fun s => pyInt ((rem : ℚ) * s.combined))).sum : ℤ) : ℚ)
            ≤ (rem : ℚ) * (scores.map (·.combined)).sum :=
          sum_map_pyInt_le rem hrem scores hnn
        have hle2 : (rem : ℚ) * (scores.map (·.combined)).sum ≤ (rem : ℚ) * 1 :=
          mul_le_mul_of_nonneg_left hsum (by exact_mod_cast hrem)
        have hle3 : (((scores.map (fun s => pyInt ((rem : ℚ) * s.combined))).sum : ℤ) : ℚ)
            ≤ ((rem : ℤ) : ℚ) := by
          calc ((((scores.map (fun s => pyInt ((rem : ℚ) * s.combined))).sum : ℤ) : ℚ))
              ≤ (rem : ℚ) * (scores.map (·.combined)).sum := hle
          _ ≤ (rem : ℚ) * 1 := hle2
          _ = ((rem : ℤ) : ℚ) := mul_one _
        have hle4 : (scores.map (fun s => pyInt ((rem : ℚ) * s.combined))).sum ≤ rem := by
          exact_mod_cast hle3
        rw [hsizes0, hadd, hconst]
        omega
      set diff : ℤ := total_size - sizes0.sum with hdiff_def
      have hdiffnn : 0 ≤ diff := by omega
      by_cases hd : diff = 0
      · have hdef : proportional_sizes scores total_size min_size = sizes0 := by
          simp only [proportional_sizes]
          rw [if_neg h0, if_neg h1, if_neg h2, if_neg (by rw [← hsizes0, ← hdiff_def]; simpa using hd)]
        rw [hdef]
        exact ⟨hlen0, fun _ => by omega, fun _ hc => absurd hc h2, fun _ => hmem0⟩
      · have hidx : argmax_idx (scores.map (·.combined)) < sizes0.length := by
          rw [hlen0, ← List.length_map scores (·.combined)]
          exact argmax_idx_lt_length (by simpa using hne)
        have hdef : proportional_sizes scores total_size min_size
            = sizes0.set (argmax_idx (scores.map (·.combined)))
                (sizes0.getD (argmax_idx (scores.map (·.combined))) 0 + diff) := by
          simp only [proportional_sizes]
          rw [if_neg h0, if_neg h1, if_neg h2, if_pos (by rw [← hsizes0, ← hdiff_def]; simpa using hd)]
        rw [hdef]
        refine ⟨by simp [hlen0], fun _ => ?_, fun _ hc => absurd hc h2, fun _ z hz => ?_⟩
        · rw [sum_set_getD_add sizes0 _ hidx diff]
          omega
        · rcases List.mem_or_eq_of_mem_set hz with hmem | heq
          · exact hmem0 z hmem
          · have : sizes0.getD (argmax_idx (scores.map (·.combined))) 0 ∈ sizes0 := by
              rw [List.getD_eq_getElem sizes0 0 hidx]
              exact List.getElem_mem hidx
            have := hmem0 _ this
            omega

/-- C1 witness: the spec's own scenario — scores 0.6/0.3/0.1, total 100,
minimum 20 (here `n·min < total`, so the sum is exactly 100 and every pane
gets at least 20). -/
theorem c1_witness :
    ([⟨"a", 1, 1, 1, 0.6⟩, ⟨"b", 1, 1, 1, 0.3⟩, ⟨"c", 1, 1, 1, 0.1⟩] : List PaneScore) ≠ [] ∧
    (0 : ℤ) < 100 ∧ (0 : ℤ) ≤ 20 ∧
    (proportional_sizes [⟨"a", 1, 1, 1, 0.6⟩, ⟨"b", 1, 1, 1, 0.3⟩, ⟨"c", 1, 1, 1, 0.1⟩]
        100 20).sum = 100 := by
  refine ⟨List.cons_ne_nil _ _, by decide, by decide, ?_⟩
  have h := c1_proportional_sizes
    [⟨"a", 1, 1, 1, 0.6⟩, ⟨"b", 1, 1, 1, 0.3⟩, ⟨"c", 1, 1, 1, 0.1⟩] 100 20
    (List.cons_ne_nil _ _) (by decide) (by decide)
    (by
      intro s hs
      simp only [List.mem_cons, List.not_mem_nil, or_false] at hs
      rcases hs with rfl | rfl | rfl <;> norm_num)
    (by simp [List.sum_cons]; norm_num)
  exact h.2.1 (Or.inl (by norm_num))

/-! ## Claim C8 -/

theorem or_two_pow_eq_add {x : ℕ} (h : x < 2 ^ 15) : x ||| 2 ^ 15 = x + 2 ^ 15 := by
  apply Nat.eq_of_testBit_eq
  intro i
  rcases lt_trichotomy i 15 with hi | rfl | hi
  · rw [Nat.testBit_lor, Nat.add_comm x, Nat.testBit_two_pow_add_gt hi,
      Nat.testBit_two_pow]
    have h15 : ¬ (15 = i) := by omega
    simp [h15]
  · rw [Nat.testBit_lor, Nat.add_comm x, Nat.testBit_two_pow_add_eq,
      Nat.testBit_lt_two_pow h, Nat.testBit_two_pow]
    simp
  · have hx : x < 2 ^ i :=
      lt_of_lt_of_le h (Nat.pow_le_pow_right (by norm_num) (le_of_lt hi))
    have h16 : x + 2 ^ 15 < 2 ^ i := by
      have h1 : (2 : ℕ) ^ 16 = 2 ^ 15 + 2 ^ 15 := by norm_num
      have h2 : (2 : ℕ) ^ 16 ≤ 2 ^ i := Nat.pow_le_pow_right (by norm_num) (by omega)
      omega
    rw [Nat.testBit_lor, Nat.testBit_lt_two_pow hx, Nat.testBit_lt_two_pow h16,
      Nat.testBit_two_pow]
    have h15 : ¬ (15 = i) := by omega
    simp [h15]

theorem csum_step_eq_spec {csum : ℕ} (h : csum < 65536) (c : Char) :
    csum_step csum c = spec_csum_step csum c := by
  have hand : csum &&& 1 = csum % 2 := Nat.and_one_is_mod csum
  have hshr : csum >>> 1 = csum / 2 := by
    rw [Nat.shiftRight_eq_div_pow]
  have key : csum >>> 1 + ((csum &&& 1) <<< 15) = (csum >>> 1) ||| ((csum &&& 1) <<< 15) := by
    rcases Nat.mod_two_eq_zero_or_one csum with hm | hm
    · rw [hand, hm]
      simp
    · rw [hand, hm]
      have hsl : (1 : ℕ) <<< 15 = 2 ^ 15 := by
        rw [Nat.shiftLeft_eq]
        norm_num
      have hp15 : (2 : ℕ) ^ 15 = 32768 := by norm_num
      have hdiv : csum / 2 < 2 ^ 15 := by omega
      rw [hsl, hshr]
      exact (or_two_pow_eq_add hdiv).symm
  unfold csum_step spec_csum_step
  rw [key]

theorem csum_step_lt (csum : ℕ) (c : Char) : csum_step csum c < 65536 :=
  lt_of_le_of_lt Nat.and_le_right (by norm_num)

theorem spec_csum_step_lt (csum : ℕ) (c : Char) : spec_csum_step csum c < 65536 :=
  lt_of_le_of_lt Nat.and_le_right (by norm_num)

theorem foldl_csum_eq_spec (s : List Char) :
    ∀ csum : ℕ, csum < 65536 → s.foldl csum_step csum = s.foldl spec_csum_step csum := by
  induction s with
  | nil => intro _ _; rfl
  | cons c t ih =>
    intro csum h
    simp only [List.foldl_cons]
    rw [csum_step_eq_spec h c]
    exact ih (spec_csum_step csum c) (spec_csum_step_lt csum c)

/-- C8: `_calculate_layout_checksum` (whose per-character step masks to 16
bits after adding the character code and combines the rotated halves with
`+`) computes exactly the spec's reference recurrence (which combines them
with `|`, a no-op difference because the two halves occupy disjoint bits of
a sub-2^16 accumulator) on the comma-joined descriptor string, formatted as
4 lowercase zero-padded hex digits; on the scenario string
`"80x24,0,0,1,80x24,80,0,2"` both stably produce `"6f15"`. -/
theorem c8_checksum_refinement :
    (∀ pane_strs : List String,
      calculate_layout_checksum pane_strs = spec_checksum (String.intercalate "," pane_strs)) ∧
    calculate_layout_checksum ["80x24,0,0,1", "80x24,80,0,2"] = "6f15" ∧
    spec_checksum "80x24,0,0,1,80x24,80,0,2" = "6f15" := by
  refine ⟨fun pane_strs => ?_, by decide, by decide⟩
  simp only [calculate_layout_checksum, spec_checksum]
  rw [foldl_csum_eq_spec _ 0 (by norm_num)]

/-! ## Claims C2, C6, C7 — the swap planner -/

theorem length_swapIdx (w : List String) (i j : ℕ) : (swapIdx w i j).length = w.length := by
  simp [swapIdx]

theorem getD_cons_perm (d : String) :
    ∀ (l : List String) (m : ℕ), m < l.length → ∀ a : String,
      (l.getD m d :: l.set m a).Perm (a :: l) := by
  intro l
  induction l with
  | nil => intro m h; simp at h
  | cons x t ih =>
    intro m h a
    cases m with
    | zero =>
      simp only [List.getD_cons_zero, List.set_cons_zero]
      exact List.Perm.swap a x t
    | succ m =>
      have hm : m < t.length := by simpa using h
      simp only [List.getD_cons_succ, List.set_cons_succ]
      refine List.Perm.trans (List.Perm.swap x (t.getD m d) (t.set m a)) ?_
      refine List.Perm.trans ((ih m hm a).cons x) ?_
      exact List.Perm.swap a x t

theorem swapIdx_perm_lt :
    ∀ (w : List String) (i j : ℕ), i < j → j < w.length → (swapIdx w i j).Perm w := by
  intro w
  induction w with
  | nil => intro i j _ hj; simp at hj
  | cons x t ih =>
    intro i j hij hj
    cases i with
    | zero =>
      cases j with
      | zero => omega
      | succ m =>
        have hm : m < t.length := by simpa using hj
        simp only [swapIdx, List.getD_cons_succ, List.getD_cons_zero, List.set_cons_zero,
          List.set_cons_succ]
        exact getD_cons_perm "" t m hm x
    | succ k =>
      cases j with
      | zero => omega
      | succ m =>
        have h1 : k < m := by omega
        have h2 : m < t.length := by simpa using hj
        simp only [swapIdx, List.getD_cons_succ, List.set_cons_succ]
        exact ((ih k m h1 h2).cons x)

theorem take_swapIdx {w : List String} {i j m : ℕ} (hm1 : m ≤ i) (hm2 : m ≤ j) :
    (swapIdx w i j).take m = w.take m := by
  apply List.ext_getElem
  · simp [swapIdx]
  · intro n h1 h2
    have hn : n < m := by
      have := h1
      rw [List.length_take] at this
      omega
    rw [List.getElem_take, List.getElem_take]
    have hni : j ≠ n := by omega
    have hnj : i ≠ n := by omega
    unfold swapIdx
    rw [List.getElem_set_ne hni, List.getElem_set_ne hnj]

theorem getElem_swapIdx_i (w : List String) (i j : ℕ) (hj : j < w.length)
    (hij : i ≠ j) (h : i < (swapIdx w i j).length) : (swapIdx w i j)[i] = w[j] := by
  unfold swapIdx
  rw [List.getElem_set_ne (fun heq => hij heq.symm), List.getElem_set_self]
  exact (List.getD_eq_getElem w "" hj).symm ▸ List.getD_eq_getElem w "" hj

/-- If `t` does not occur among the first `i` elements, its first occurrence
is at position `i` or later. -/
theorem le_indexOf_of_not_mem_take {w : List String} {t : String} {i : ℕ}
    (hmem : t ∈ w) (htake : t ∉ w.take i) : i ≤ List.indexOf t w := by
  by_contra hlt
  push_neg at hlt
  have hj : List.indexOf t w < w.length := List.indexOf_lt_length.mpr hmem
  have : t ∈ w.take i := by
    have hb : List.indexOf t w < (w.take i).length := by
      rw [List.length_take]
      omega
    have : (w.take i)[List.indexOf t w] = w[List.indexOf t w] := List.getElem_take w
    rw [List.getElem_indexOf hj] at this
    exact this ▸ List.getElem_mem hb
  exact htake this

/-- The core invariant of the swap-planning loop: on a duplicate-free
working order of the right length whose tail from position `i` is a
permutation of the remaining target positions, the loop ends with the
working order `take i ++ ts`, and replaying the recorded swap steps (by pane
id, the effect of `tmux swap-pane`) on the initial working order reproduces
exactly that final order. -/
theorem plan_swaps_spec :
    ∀ (ts : List String) (i : ℕ) (w : List String),
      w.Nodup → w.length = i + ts.length → (w.drop i).Perm ts →
      (plan_swaps ts i w).1 = w.take i ++ ts ∧
      (plan_swaps ts i w).2.foldl apply_swap w = (plan_swaps ts i w).1 := by
  intro ts
  induction ts with
  | nil =>
    intro i w _ hlen _
    simp only [List.length_nil, Nat.add_zero] at hlen
    simp only [plan_swaps]
    constructor
    · rw [List.take_of_length_le (by omega), List.append_nil]
    · rfl
  | cons t ts ih =>
    intro i w hnd hlen hdrop
    have hi : i < w.length := by simp at hlen; omega
    have hnotbreak : ¬ w.length ≤ i := by omega
    have hgd : w.getD i "" = w[i] := List.getD_eq_getElem w "" hi
    have hdropeq : w.drop i = w[i] :: w.drop (i + 1) := List.drop_eq_getElem_cons hi
    have htake_succ : w.take (i + 1) = w.take i ++ [w[i]] := by
      rw [List.take_succ, List.getElem?_eq_getElem hi]
      rfl
    by_cases hc : w.getD i "" = t
    · -- position i already holds the wanted pane: no step, advance
      have hred : plan_swaps (t :: ts) i w = plan_swaps ts (i + 1) w := by
        simp only [plan_swaps]
        rw [if_neg hnotbreak, if_pos hc]
      have hwi : w[i] = t := by rw [← hgd, hc]
      have hdrop2 : (w.drop (i + 1)).Perm ts := by
        apply List.Perm.cons_inv (a := w[i])
        rw [← hdropeq, hwi]
        exact hdrop
      obtain ⟨ha, hb⟩ := ih (i + 1) w hnd (by simp at hlen ⊢; omega) hdrop2
      refine ⟨?_, ?_⟩
      · rw [hred, ha, htake_succ, hwi]
        simp
      · rw [hred]
        exact hb
    · -- wrong pane at position i: swap it with the wanted pane
      have hwi_ne : w[i] ≠ t := by rw [← hgd]; exact hc
      have htmem_drop : t ∈ w.drop i := hdrop.mem_iff.mpr (List.mem_cons_self t ts)
      have htmem : t ∈ w := List.mem_of_mem_drop htmem_drop
      set j := List.indexOf t w with hjdef
      have hj : j < w.length := List.indexOf_lt_length.mpr htmem
      have hwj : w[j] = t := List.getElem_indexOf hj
      have hij_ne : i ≠ j := by
        intro heq
        apply hwi_ne
        have hgo : w[i] = w[j] := by simp only [heq]
        rw [hgo, hwj]
      have htnottake : t ∉ w.take i := by
        intro hmem
        have hdisj : (w.take i).Disjoint (w.drop i) := List.disjoint_take_drop hnd le_rfl
        exact hdisj hmem htmem_drop
      have hij : i < j :=
        lt_of_le_of_ne (le_indexOf_of_not_mem_take htmem htnottake) hij_ne
      set w2 := swapIdx w i j with hw2def
      have hperm : w2.Perm w := swapIdx_perm_lt w i j hij hj
      have hlen2 : w2.length = w.length := length_swapIdx w i j
      have hnd2 : w2.Nodup := hperm.nodup_iff.mpr hnd
      have htake2 : w2.take i = w.take i := take_swapIdx le_rfl (le_of_lt hij)
      have hi2 : i < w2.length := by omega
      have hw2i : w2[i] = t := by
        have h3 : (swapIdx w i j)[i] = w[j] :=
          getElem_swapIdx_i w i j hj hij_ne (by rw [length_swapIdx]; omega)
        rw [hwj] at h3
        exact h3
      have hdp : (w2.drop i).Perm (w.drop i) := by
        have hsplit : w.take i ++ w2.drop i = w2 := by
          rw [← htake2]
          exact List.take_append_drop i w2
        have hchain : (w.take i ++ w2.drop i).Perm (w.take i ++ w.drop i) := by
          rw [hsplit, List.take_append_drop]
          exact hperm
        exact (List.perm_append_left_iff _).mp hchain
      have hdrop2 : (w2.drop (i + 1)).Perm ts := by
        apply List.Perm.cons_inv (a := w2[i])
        rw [← List.drop_eq_getElem_cons hi2, hw2i]
        exact hdp.trans hdrop
      have htake_succ2 : w2.take (i + 1) = w.take i ++ [t] := by
        rw [List.take_succ, List.getElem?_eq_getElem hi2, htake2, hw2i]
        rfl
      obtain ⟨ha, hb⟩ := ih (i + 1) w2 hnd2 (by simp at hlen ⊢; omega) hdrop2
      have hred : plan_swaps (t :: ts) i w
          = ((plan_swaps ts (i + 1) w2).1,
             (w.getD i "", t) :: (plan_swaps ts (i + 1) w2).2) := by
        simp only [plan_swaps]
        rw [if_neg hnotbreak, if_neg hc, if_pos htmem]
      have happ : apply_swap w (w.getD i "", t) = w2 := by
        unfold apply_swap
        have hcmem : w.getD i "" ∈ w := by
          rw [hgd]
          exact List.getElem_mem hi
        rw [if_pos ⟨hcmem, htmem⟩]
        have hidxc : List.indexOf (w.getD i "") w = i := by
          rw [hgd]
          exact List.indexOf_getElem hnd i hi
        rw [hidxc, hw2def, hjdef]
      refine ⟨?_, ?_⟩
      · rw [hred]
        dsimp only
        rw [ha, htake_succ2]
        simp
      · rw [hred]
        dsimp only
        rw [List.foldl_cons, happ]
        exact hb

/-- The `Swap` steps of a plan, in recorded order, as (pane_id, target_id)
pairs. -/
def swap_pairs (plan : LayoutPlan) : List (String × String) :=
  plan.steps.filterMap (fun s =>
    if s.operation = LayoutOperation.swap then some (s.pane_id, s.target_id.getD "") else none)

theorem swap_pairs_plan_layout (current_panes : List PaneData) (layout : WindowLayout)
    (h : current_panes ≠ []) :
    swap_pairs (plan_layout current_panes layout)
      = (plan_swaps ((sort_pane_layouts_by_pos layout.panes).map (·.id)) 0
          ((sort_panes_by_pos current_panes).map (·.id))).2 := by
  unfold plan_layout swap_pairs
  rw [if_neg (by simpa using h)]
  dsimp only
  rw [List.filterMap_append, List.filterMap_map, List.filterMap_map]
  simp [Function.comp_def]

/-- C2: when the current snapshot and the target layout carry the same set
of pane ids (no duplicates on either side), replaying the Swap steps
recorded by `plan_layout`, in their recorded order, on the (y, x)-ascending
current pane ordering yields exactly the (y, x)-ascending target pane
ordering. -/
theorem c2_swaps_reach_target (current_panes : List PaneData) (layout : WindowLayout)
    (hnc : (current_panes.map (·.id)).Nodup)
    (hnt : (layout.panes.map (·.id)).Nodup)
    (hids : (current_panes.map (·.id)).toFinset = (layout.panes.map (·.id)).toFinset) :
    (swap_pairs (plan_layout current_panes layout)).foldl apply_swap
        ((sort_panes_by_pos current_panes).map (·.id))
      = (sort_pane_layouts_by_pos layout.panes).map (·.id) := by
  have hperm_ids : (current_panes.map (·.id)).Perm (layout.panes.map (·.id)) :=
    List.perm_of_nodup_nodup_toFinset_eq hnc hnt hids
  by_cases hemp : current_panes = []
  · subst hemp
    have hmap : layout.panes.map (·.id) = [] := List.perm_nil.mp hperm_ids.symm
    have hpanes : layout.panes = [] := List.map_eq_nil_iff.mp hmap
    rw [hpanes]
    rfl
  · have hp1 : ((sort_panes_by_pos current_panes).map (·.id)).Perm
        (current_panes.map (·.id)) :=
      (List.perm_insertionSort _ current_panes).map _
    have hp2 : ((sort_pane_layouts_by_pos layout.panes).map (·.id)).Perm
        (layout.panes.map (·.id)) :=
      (List.perm_insertionSort _ layout.panes).map _
    have hperm : ((sort_panes_by_pos current_panes).map (·.id)).Perm
        ((sort_pane_layouts_by_pos layout.panes).map (·.id)) :=
      hp1.trans (hperm_ids.trans hp2.symm)
    have hnodup : ((sort_panes_by_pos current_panes).map (·.id)).Nodup :=
      hp1.nodup_iff.mpr hnc
    obtain ⟨ha, hb⟩ := plan_swaps_spec
      ((sort_pane_layouts_by_pos layout.panes).map (·.id)) 0
      ((sort_panes_by_pos current_panes).map (·.id))
      hnodup (by simpa using hperm.length_eq) (by simpa using hperm)
    rw [swap_pairs_plan_layout current_panes layout hemp, hb, ha]
    simp

/-- C2 witness: the spec scenario — current order [A, B, C], target order
[C, A, B]; the recorded swaps transform [A, B, C] into exactly [C, A, B]. -/
theorem c2_witness :
    (([⟨"A", "", 10, 24, 0, 0, false, "", ""⟩, ⟨"B", "", 10, 24, 10, 0, false, "", ""⟩,
       ⟨"C", "", 10, 24, 20, 0, false, "", ""⟩] : List PaneData).map (·.id)).Nodup ∧
    (([⟨"C", 0, 0, 10, 24⟩, ⟨"A", 10, 0, 10, 24⟩, ⟨"B", 20, 0, 10, 24⟩] :
        List PaneLayout).map (·.id)).Nodup ∧
    (swap_pairs (plan_layout
        [⟨"A", "", 10, 24, 0, 0, false, "", ""⟩, ⟨"B", "", 10, 24, 10, 0, false, "", ""⟩,
         ⟨"C", "", 10, 24, 20, 0, false, "", ""⟩]
        ⟨30, 24, [⟨"C", 0, 0, 10, 24⟩, ⟨"A", 10, 0, 10, 24⟩, ⟨"B", 20, 0, 10, 24⟩],
         LayoutStrategy.balanced⟩)).foldl apply_swap ["A", "B", "C"] = ["C", "A", "B"] := by
  refine ⟨by decide, by decide, ?_⟩
  have h := c2_swaps_reach_target
    [⟨"A", "", 10, 24, 0, 0, false, "", ""⟩, ⟨"B", "", 10, 24, 10, 0, false, "", ""⟩,
     ⟨"C", "", 10, 24, 20, 0, false, "", ""⟩]
    ⟨30, 24, [⟨"C", 0, 0, 10, 24⟩, ⟨"A", 10, 0, 10, 24⟩, ⟨"B", 20, 0, 10, 24⟩],
     LayoutStrategy.balanced⟩
    (by decide) (by decide) (by decide)
  have hcur : ((sort_panes_by_pos
      [⟨"A", "", 10, 24, 0, 0, false, "", ""⟩, ⟨"B", "", 10, 24, 10, 0, false, "", ""⟩,
       ⟨"C", "", 10, 24, 20, 0, false, "", ""⟩]).map (·.id)) = ["A", "B", "C"] := by decide
  have htgt : ((sort_pane_layouts_by_pos
      [⟨"C", 0, 0, 10, 24⟩, ⟨"A", 10, 0, 10, 24⟩, ⟨"B", 20, 0, 10, 24⟩]).map (·.id))
      = ["C", "A", "B"] := by decide
  rw [hcur, htgt] at h
  exact h

theorem plan_swaps_eq_nil :
    ∀ (ts : List String) (i : ℕ) (w : List String),
      w.drop i = ts → (plan_swaps ts i w).2 = [] := by
  intro ts
  induction ts with
  | nil => intro i w _; rfl
  | cons t ts ih =>
    intro i w hdrop
    have hi : i < w.length := by
      by_contra hle
      push_neg at hle
      rw [List.drop_eq_nil_of_le hle] at hdrop
      exact List.noConfusion hdrop
    have hdropeq : w.drop i = w[i] :: w.drop (i + 1) := List.drop_eq_getElem_cons hi
    rw [hdropeq] at hdrop
    injection hdrop with h1 h2
    have hgd : w.getD i "" = t := by rw [List.getD_eq_getElem w "" hi, h1]
    simp only [plan_swaps]
    rw [if_neg (by omega), if_pos hgd]
    exact ih (i + 1) w h2

/-- C6: `plan_layout` is idempotent with respect to ordering — when the
(y, x)-ascending current pane ordering already equals the (y, x)-ascending
target ordering, the returned plan contains zero Swap steps. -/
theorem c6_plan_layout_idempotent (current_panes : List PaneData) (layout : WindowLayout)
    (h : (sort_panes_by_pos current_panes).map (·.id)
        = (sort_pane_layouts_by_pos layout.panes).map (·.id)) :
    (plan_layout current_panes layout).steps.filter
      (fun s => decide (s.operation = LayoutOperation.swap)) = [] := by
  by_cases hemp : current_panes.isEmpty
  · unfold plan_layout
    rw [if_pos hemp]
    rfl
  · unfold plan_layout
    rw [if_neg hemp]
    dsimp only
    rw [List.filter_append]
    have hswaps : (plan_swaps ((sort_pane_layouts_by_pos layout.panes).map (·.id)) 0
        ((sort_panes_by_pos current_panes).map (·.id))).2 = [] :=
      plan_swaps_eq_nil _ 0 _ (by simpa using h)
    rw [hswaps]
    simp [List.filter_map, Function.comp_def]

/-- C6 witness: a two-pane snapshot already in target order produces a plan
with no Swap steps. -/
theorem c6_witness :
    ((sort_panes_by_pos [⟨"A", "", 10, 24, 0, 0, false, "", ""⟩,
        ⟨"B", "", 10, 24, 10, 0, false, "", ""⟩]).map (·.id)
      = (sort_pane_layouts_by_pos [⟨"A", 0, 0, 10, 24⟩, ⟨"B", 10, 0, 20, 24⟩]).map (·.id)) ∧
    (plan_layout [⟨"A", "", 10, 24, 0, 0, false, "", ""⟩, ⟨"B", "", 10, 24, 10, 0, false, "", ""⟩]
        ⟨30, 24, [⟨"A", 0, 0, 10, 24⟩, ⟨"B", 10, 0, 20, 24⟩], LayoutStrategy.balanced⟩).steps.filter
      (fun s => decide (s.operation = LayoutOperation.swap)) = [] :=
  ⟨by decide, c6_plan_layout_idempotent _ _ (by decide)⟩

/-- C7, counterexample: with an empty current snapshot `plan_layout` returns
an empty plan, so a non-empty target layout gets no Resize step at all,
against the claim's "for every current snapshot". -/
theorem c7_counterexample :
    ¬ ((plan_layout [] ⟨80, 24, [⟨"%1", 0, 0, 80, 24⟩], LayoutStrategy.balanced⟩).steps.filter
        (fun s => decide (s.operation = LayoutOperation.resize))
      = [(⟨"%1", 0, 0, 80, 24⟩ : PaneLayout)].map (fun p =>
          (⟨LayoutOperation.resize, p.id, none, some p.width, some p.height, false⟩ : LayoutStep))) := by
  decide

/-- C7, amended: provided the current snapshot is non-empty, the plan
returned by `plan_layout` contains exactly one Resize step per pane of the
target layout, in the layout's pane order, carrying that pane's target width
and height even when they equal the current dimensions (an empty snapshot
short-circuits to an empty plan). -/
theorem c7_resize_steps (current_panes : List PaneData) (layout : WindowLayout)
    (h : current_panes ≠ []) :
    (plan_layout current_panes layout).steps.filter
        (fun s => decide (s.operation = LayoutOperation.resize))
      = layout.panes.map (fun p =>
          (⟨LayoutOperation.resize, p.id, none, some p.width, some p.height, false⟩ : LayoutStep)) := by
  unfold plan_layout
  rw [if_neg (by simpa using h)]
  dsimp only
  rw [List.filter_append, List.filter_map, List.filter_map]
  simp [Function.comp_def]

/-- C7 witness: a one-pane snapshot and a two-pane target yield exactly the
two Resize steps of the target panes. -/
theorem c7_witness :
    ([⟨"A", "", 10, 24, 0, 0, false, "", ""⟩] : List PaneData) ≠ [] ∧
    (plan_layout [⟨"A", "", 10, 24, 0, 0, false, "", ""⟩]
        ⟨30, 24, [⟨"A", 0, 0, 10, 24⟩, ⟨"B", 10, 0, 20, 24⟩], LayoutStrategy.balanced⟩).steps.filter
        (fun s => decide (s.operation = LayoutOperation.resize))
      = [(⟨LayoutOperation.resize, "A", none, some 10, some 24, false⟩ : LayoutStep),
         ⟨LayoutOperation.resize, "B", none, some 20, some 24, false⟩] := by
  refine ⟨List.cons_ne_nil _ _, ?_⟩
  rw [c7_resize_steps _ _ (List.cons_ne_nil _ _)]
  decide

/-! ## Claim C3 -/

/-- C3, amended: with layout type `auto` and a positive window height, the
dispatch of `calculate` is: the related placement whenever the strategy is
`related` AND a non-empty relevance matrix is supplied (regardless of pane
count — this check precedes the pane-count check); otherwise, with exactly
2 panes, horizontal when width/height > 1.5 and vertical otherwise; and
otherwise the tiled placement. -/
theorem c3_auto_dispatch (strategy : LayoutStrategy) (min_width min_height : ℤ)
    (panes : List PaneData) (analyses : String → Option AnalysisScores)
    (window_width window_height : ℤ) (relevance_matrix : Option RelMatrix)
    (hwh : 0 < window_height) :
    (∀ m, relevance_matrix = some m → m ≠ [] → strategy = LayoutStrategy.related →
      (calculate strategy min_width min_height panes analyses window_width window_height
          relevance_matrix LayoutType.auto).panes
        = layout_related min_width min_height (calculate_scores strategy panes analyses)
            m window_width window_height) ∧
    (¬ (strategy = LayoutStrategy.related ∧ matrix_truthy relevance_matrix = true) →
      panes.length = 2 →
      (calculate strategy min_width min_height panes analyses window_width window_height
          relevance_matrix LayoutType.auto).panes
        = (if 1.5 < (window_width : ℚ) / (window_height : ℚ) then
            layout_horizontal min_width (calculate_scores strategy panes analyses)
              window_width window_height
          else
            layout_vertical min_height (calculate_scores strategy panes analyses)
              window_width window_height)) ∧
    (¬ (strategy = LayoutStrategy.related ∧ matrix_truthy relevance_matrix = true) →
      panes.length ≠ 2 →
      (calculate strategy min_width min_height panes analyses window_width window_height
          relevance_matrix LayoutType.auto).panes
        = layout_tiled min_width min_height (calculate_scores strategy panes analyses)
            window_width window_height) := by
  refine ⟨?_, ?_, ?_⟩
  · intro m hm hne hstrat
    subst hm
    unfold calculate
    dsimp only
    rw [if_neg (show ¬ (LayoutType.auto = LayoutType.horizontal) from by decide),
      if_neg (show ¬ (LayoutType.auto = LayoutType.vertical) from by decide),
      if_neg (show ¬ (LayoutType.auto = LayoutType.tiled) from by decide),
      if_pos ⟨hstrat, by simp [matrix_truthy, hne]⟩]
    simp
  · intro hnot h2
    unfold calculate
    dsimp only
    rw [if_neg (show ¬ (LayoutType.auto = LayoutType.horizontal) from by decide),
      if_neg (show ¬ (LayoutType.auto = LayoutType.vertical) from by decide),
      if_neg (show ¬ (LayoutType.auto = LayoutType.tiled) from by decide),
      if_neg hnot, if_pos h2]
  · intro hnot h2
    unfold calculate
    dsimp only
    rw [if_neg (show ¬ (LayoutType.auto = LayoutType.horizontal) from by decide),
      if_neg (show ¬ (LayoutType.auto = LayoutType.vertical) from by decide),
      if_neg (show ¬ (LayoutType.auto = LayoutType.tiled) from by decide),
      if_neg hnot, if_neg h2]

/-- C3 witness: strategy `balanced`, no matrix, three panes (≠ 2) falls
through to the tiled placement. -/
theorem c3_witness :
    (0 : ℤ) < 40 ∧
    (calculate LayoutStrategy.balanced 20 5
        [⟨"A", "", 80, 40, 0, 0, false, "", ""⟩, ⟨"B", "", 80, 40, 80, 0, false, "", ""⟩,
         ⟨"C", "", 80, 40, 0, 40, false, "", ""⟩]
        (fun _ => none) 160 40 none LayoutType.auto).panes
      = layout_tiled 20 5
          (calculate_scores LayoutStrategy.balanced
            [⟨"A", "", 80, 40, 0, 0, false, "", ""⟩, ⟨"B", "", 80, 40, 80, 0, false, "", ""⟩,
             ⟨"C", "", 80, 40, 0, 40, false, "", ""⟩] (fun _ => none)) 160 40 := by
  refine ⟨by decide, ?_⟩
  exact (c3_auto_dispatch LayoutStrategy.balanced 20 5 _ (fun _ => none) 160 40 none
    (by decide)).2.2 (by simp [matrix_truthy]) (by decide)

/-- C3, counterexample: with exactly 2 panes, strategy `related` and a
non-empty relevance matrix supplied, layout type `auto` and aspect ratio
160/40 = 4 > 1.5, the claim demands the horizontal placement, but
`calculate` takes the `related` branch (checked before the pane count) and
produces the tiled geometry `[98, 62]` instead of the horizontal `[80, 80]`. -/
theorem c3_counterexample :
    ¬ ((calculate LayoutStrategy.related 20 5
        [⟨"A", "", 80, 40, 0, 0, false, "", ""⟩, ⟨"B", "", 80, 40, 80, 0, false, "", ""⟩]
        (fun _ => none) 160 40
        (some [(("A", "B"), (⟨"A", "B", ∅, 0, 0, 0⟩ : RelevanceResult))]) LayoutType.auto).panes
      = layout_horizontal 20
          (calculate_scores LayoutStrategy.related
            [⟨"A", "", 80, 40, 0, 0, false, "", ""⟩, ⟨"B", "", 80, 40, 80, 0, false, "", ""⟩]
            (fun _ => none)) 160 40) := by
  intro hcl
  have hscores : calculate_scores LayoutStrategy.related
      [⟨"A", "", 80, 40, 0, 0, false, "", ""⟩, ⟨"B", "", 80, 40, 80, 0, false, "", ""⟩]
      (fun _ => none)
      = [⟨"A", 0.5, 0.5, 0.5, 0.5⟩, ⟨"B", 0.5, 0.5, 0.5, 0.5⟩] := by
    norm_num [calculate_scores, calculate_scores_raw, score_entry, normalize_scores]
  have h1 := (c3_auto_dispatch LayoutStrategy.related 20 5
      [⟨"A", "", 80, 40, 0, 0, false, "", ""⟩, ⟨"B", "", 80, 40, 80, 0, false, "", ""⟩]
      (fun _ => none) 160 40
      (some [(("A", "B"), (⟨"A", "B", ∅, 0, 0, 0⟩ : RelevanceResult))]) (by decide)).1
      [(("A", "B"), (⟨"A", "B", ∅, 0, 0, 0⟩ : RelevanceResult))] rfl (by decide) rfl
  have hrel : layout_related 20 5 [⟨"A", 0.5, 0.5, 0.5, 0.5⟩, ⟨"B", 0.5, 0.5, 0.5, 0.5⟩]
      [(("A", "B"), (⟨"A", "B", ∅, 0, 0, 0⟩ : RelevanceResult))] 160 40
      = layout_tiled 20 5 [⟨"A", 0.5, 0.5, 0.5, 0.5⟩, ⟨"B", 0.5, 0.5, 0.5, 0.5⟩] 160 40 := by
    rw [layout_related, if_pos (by norm_num)]
  have htile : layout_tiled 20 5 [⟨"A", 0.5, 0.5, 0.5, 0.5⟩, ⟨"B", 0.5, 0.5, 0.5, 0.5⟩] 160 40
      = [⟨"A", 0, 0, 98, 40⟩, ⟨"B", 98, 0, 62, 40⟩] := by
    have hfloor : pyInt ((160 : ℚ) / golden_ratio) = 98 := by
      rw [pyInt, golden_ratio, if_pos (by norm_num)]
      norm_num [Int.floor_eq_iff]
    norm_num [layout_tiled, sort_scores_desc, List.insertionSort, List.orderedInsert,
      proportional_sizes, place_column, hfloor]
  have hhor : layout_horizontal 20 [⟨"A", 0.5, 0.5, 0.5, 0.5⟩, ⟨"B", 0.5, 0.5, 0.5, 0.5⟩] 160 40
      = [⟨"A", 0, 0, 80, 40⟩, ⟨"B", 80, 0, 80, 40⟩] := by
    have hpy : pyInt (60 : ℚ) = 60 := by
      rw [pyInt, if_pos (by norm_num)]
      norm_num [Int.floor_eq_iff]
    norm_num [layout_horizontal, sort_scores_desc, List.insertionSort, List.orderedInsert,
      proportional_sizes, place_row, hpy, argmax_idx]
  rw [hscores] at h1 hcl
  rw [h1, hrel, htile, hhor] at hcl
  exact absurd hcl (by decide)

/-! ## Claim C4 -/

/-- C4, amended: under strategy `related` each pane's combined score before
normalization is — unconditionally, at every input — the unweighted mean
`(importance + interestingness + activity) / 3` (the final `else` arm of
`_calculate_scores`), which differs from the claimed 0.4/0.3/0.3 weighting
at every pane whose three scores are not all equal (`c4_counterexample`);
and when no relevance matrix is supplied, `calculate` under `related`
follows the same placement dispatch as under `balanced`, so the pane
geometries coincide whenever every pane's three (boost-adjusted) component
scores are equal, since exactly then the mean and the weighting agree. -/
theorem c4_mean_combination (panes : List PaneData)
    (analyses : String → Option AnalysisScores) (min_width min_height ww wh : ℤ)
    (lt : LayoutType) :
    (∀ s ∈ calculate_scores_raw LayoutStrategy.related panes analyses,
      s.combined = (s.importance + s.interestingness + s.activity) / 3) ∧
    ((∀ s ∈ calculate_scores_raw LayoutStrategy.related panes analyses,
        s.importance = s.interestingness ∧ s.interestingness = s.activity) →
      (calculate LayoutStrategy.related min_width min_height panes analyses ww wh none lt).panes
        = (calculate LayoutStrategy.balanced min_width min_height panes analyses ww wh
            none lt).panes) := by
  constructor
  · intro s hs
    obtain ⟨p, hp, rfl⟩ := List.mem_map.mp hs
    rfl
  · intro heq
    have hentry : ∀ p ∈ panes,
        score_entry LayoutStrategy.related analyses p
          = score_entry LayoutStrategy.balanced analyses p := by
      intro p hp
      obtain ⟨h1, h2⟩ := heq (score_entry LayoutStrategy.related analyses p)
        (List.mem_map_of_mem _ hp)
      have hc : (score_entry LayoutStrategy.related analyses p).combined
          = (score_entry LayoutStrategy.balanced analyses p).combined := by
        have hr : (score_entry LayoutStrategy.related analyses p).combined
            = ((score_entry LayoutStrategy.related analyses p).importance
              + (score_entry LayoutStrategy.related analyses p).interestingness
              + (score_entry LayoutStrategy.related analyses p).activity) / 3 := rfl
        have hb : (score_entry LayoutStrategy.balanced analyses p).combined
            = 0.4 * (score_entry LayoutStrategy.related analyses p).importance
              + 0.3 * (score_entry LayoutStrategy.related analyses p).interestingness
              + 0.3 * (score_entry LayoutStrategy.related analyses p).activity := rfl
        have h3 : (score_entry LayoutStrategy.related analyses p).activity
            = (score_entry LayoutStrategy.related analyses p).importance := (h1.trans h2).symm
        have h4 : (score_entry LayoutStrategy.related analyses p).interestingness
            = (score_entry LayoutStrategy.related analyses p).importance := h1.symm
        rw [hr, hb, h3, h4]
        ring
      calc score_entry LayoutStrategy.related analyses p
          = ⟨(score_entry LayoutStrategy.balanced analyses p).id,
             (score_entry LayoutStrategy.balanced analyses p).importance,
             (score_entry LayoutStrategy.balanced analyses p).interestingness,
             (score_entry LayoutStrategy.balanced analyses p).activity,
             (score_entry LayoutStrategy.related analyses p).combined⟩ := rfl
        _ = score_entry LayoutStrategy.balanced analyses p := by rw [hc]
    have hscores : calculate_scores LayoutStrategy.related panes analyses
        = calculate_scores LayoutStrategy.balanced panes analyses := by
      unfold calculate_scores calculate_scores_raw
      rw [List.map_congr_left hentry]
    unfold calculate
    dsimp only
    rw [hscores]
    simp [matrix_truthy]

/-- C4, counterexample: under strategy `related` the combined score is the
plain average (the final `else` arm of `_calculate_scores`), not the
balanced weighting — a pane with importance 1 and the other two scores 0
gets raw combined score 1/3, not 0.4. -/
theorem c4_counterexample :
    ¬ (∀ s ∈ calculate_scores_raw LayoutStrategy.related
          [⟨"A", "", 80, 24, 0, 0, false, "", ""⟩] (fun _ => some ⟨1, 0, 0⟩),
        s.combined = 0.4 * s.importance + 0.3 * s.interestingness + 0.3 * s.activity) := by
  intro hall
  have h := hall (score_entry LayoutStrategy.related (fun _ => some ⟨1, 0, 0⟩)
      ⟨"A", "", 80, 24, 0, 0, false, "", ""⟩)
    (List.mem_singleton.mpr rfl)
  have hc : (score_entry LayoutStrategy.related (fun _ => some ⟨1, 0, 0⟩)
      ⟨"A", "", 80, 24, 0, 0, false, "", ""⟩).combined = ((1 : ℚ) + 0 + 0) / 3 := rfl
  have him : (score_entry LayoutStrategy.related (fun _ => some ⟨1, 0, 0⟩)
      ⟨"A", "", 80, 24, 0, 0, false, "", ""⟩).importance = 1 := rfl
  have hint : (score_entry LayoutStrategy.related (fun _ => some ⟨1, 0, 0⟩)
      ⟨"A", "", 80, 24, 0, 0, false, "", ""⟩).interestingness = 0 := rfl
  have hact : (score_entry LayoutStrategy.related (fun _ => some ⟨1, 0, 0⟩)
      ⟨"A", "", 80, 24, 0, 0, false, "", ""⟩).activity = 0 := rfl
  rw [hc, him, hint, hact] at h
  norm_num at h

/-- C4 witness: the mean conjunct instantiated at a distinguishing input —
a pane scored (1, 0, 0), where the mean 1/3 differs from the 0.4/0.3/0.3
weighting — and the geometry-equality conjunct at a pane whose three scores
are all 0.3. -/
theorem c4_witness :
    (∀ s ∈ calculate_scores_raw LayoutStrategy.related
        [⟨"A", "", 80, 24, 0, 0, false, "", ""⟩] (fun _ => some ⟨1, 0, 0⟩),
      s.combined = (s.importance + s.interestingness + s.activity) / 3) ∧
    (∀ s ∈ calculate_scores_raw LayoutStrategy.related
        [⟨"A", "", 80, 24, 0, 0, false, "", ""⟩] (fun _ => some ⟨0.3, 0.3, 0.3⟩),
      s.importance = s.interestingness ∧ s.interestingness = s.activity) ∧
    (calculate LayoutStrategy.related 20 5 [⟨"A", "", 80, 24, 0, 0, false, "", ""⟩]
        (fun _ => some ⟨0.3, 0.3, 0.3⟩) 160 40 none LayoutType.auto).panes
      = (calculate LayoutStrategy.balanced 20 5 [⟨"A", "", 80, 24, 0, 0, false, "", ""⟩]
        (fun _ => some ⟨0.3, 0.3, 0.3⟩) 160 40 none LayoutType.auto).panes := by
  have hhyp : ∀ s ∈ calculate_scores_raw LayoutStrategy.related
      [⟨"A", "", 80, 24, 0, 0, false, "", ""⟩] (fun _ => some ⟨0.3, 0.3, 0.3⟩),
      s.importance = s.interestingness ∧ s.interestingness = s.activity := by
    intro s hs
    obtain ⟨p, hp, rfl⟩ := List.mem_map.mp hs
    rw [List.mem_singleton] at hp
    subst hp
    exact ⟨rfl, rfl⟩
  exact ⟨(c4_mean_combination [⟨"A", "", 80, 24, 0, 0, false, "", ""⟩]
      (fun _ => some ⟨1, 0, 0⟩) 20 5 160 40 LayoutType.auto).1,
    hhyp,
    (c4_mean_combination [⟨"A", "", 80, 24, 0, 0, false, "", ""⟩]
      (fun _ => some ⟨0.3, 0.3, 0.3⟩) 20 5 160 40 LayoutType.auto).2 hhyp⟩

/-! ## Claim C9 -/

/-- C9: `calculate_relevance` is symmetric in its two contents — swapping
the arguments leaves the jaccard similarity, topic similarity, combined
score and shared-keyword set unchanged — and `build_relevance_matrix`
stores each visited pair's result under both key orderings. -/
theorem c9_relevance_symmetric (c1 c2 i1 i2 : String) (panes : List PaneData)
    (p q : PaneData) (hpq : (p, q) ∈ all_pairs panes) :
    ((calculate_relevance c1 c2 i1 i2).jaccard_similarity
        = (calculate_relevance c2 c1 i2 i1).jaccard_similarity ∧
      (calculate_relevance c1 c2 i1 i2).topic_similarity
        = (calculate_relevance c2 c1 i2 i1).topic_similarity ∧
      (calculate_relevance c1 c2 i1 i2).combined_score
        = (calculate_relevance c2 c1 i2 i1).combined_score ∧
      (calculate_relevance c1 c2 i1 i2).shared_keywords
        = (calculate_relevance c2 c1 i2 i1).shared_keywords) ∧
    ((p.id, q.id), calculate_relevance p.content q.content p.id q.id)
      ∈ build_relevance_matrix panes ∧
    ((q.id, p.id), calculate_relevance p.content q.content p.id q.id)
      ∈ build_relevance_matrix panes := by
  refine ⟨⟨?_, ?_, ?_, ?_⟩, ?_, ?_⟩
  · dsimp only [calculate_relevance]
    rw [Finset.inter_comm ((extract_keywords 20 c2).toFinset) ((extract_keywords 20 c1).toFinset),
      Finset.union_comm ((extract_keywords 20 c2).toFinset) ((extract_keywords 20 c1).toFinset)]
  · dsimp only [calculate_relevance]
    rw [Finset.inter_comm ((tokenize c2).toFinset ∩ code_keywords.toFinset)
        ((tokenize c1).toFinset ∩ code_keywords.toFinset),
      Finset.union_comm ((tokenize c2).toFinset ∩ code_keywords.toFinset)
        ((tokenize c1).toFinset ∩ code_keywords.toFinset)]
    simp only [and_comm]
  · dsimp only [calculate_relevance]
    rw [Finset.inter_comm ((extract_keywords 20 c2).toFinset) ((extract_keywords 20 c1).toFinset),
      Finset.union_comm ((extract_keywords 20 c2).toFinset) ((extract_keywords 20 c1).toFinset),
      Finset.inter_comm ((tokenize c2).toFinset) ((tokenize c1).toFinset),
      Finset.union_comm ((tokenize c2).toFinset) ((tokenize c1).toFinset),
      Finset.inter_comm ((tokenize c2).toFinset ∩ code_keywords.toFinset)
        ((tokenize c1).toFinset ∩ code_keywords.toFinset),
      Finset.union_comm ((tokenize c2).toFinset ∩ code_keywords.toFinset)
        ((tokenize c1).toFinset ∩ code_keywords.toFinset)]
    simp only [and_comm]
  · dsimp only [calculate_relevance]
    exact Finset.inter_comm _ _
  · unfold build_relevance_matrix
    rw [List.mem_flatMap]
    exact ⟨(p, q), hpq, by simp⟩
  · unfold build_relevance_matrix
    rw [List.mem_flatMap]
    exact ⟨(p, q), hpq, by simp⟩

/-- C9 witness: two concrete panes; their pair is stored under both key
orderings and the symmetry equalities hold on their contents. -/
theorem c9_witness :
    ((⟨"A", "git status", 80, 24, 0, 0, false, "", ""⟩ : PaneData),
      (⟨"B", "ls -la", 80, 24, 80, 0, false, "", ""⟩ : PaneData)) ∈ all_pairs
        [⟨"A", "git status", 80, 24, 0, 0, false, "", ""⟩,
         ⟨"B", "ls -la", 80, 24, 80, 0, false, "", ""⟩] ∧
    ((("A", "B"),
        calculate_relevance "git status" "ls -la" "A" "B")
      ∈ build_relevance_matrix
        [⟨"A", "git status", 80, 24, 0, 0, false, "", ""⟩,
         ⟨"B", "ls -la", 80, 24, 80, 0, false, "", ""⟩] ∧
     (("B", "A"),
        calculate_relevance "git status" "ls -la" "A" "B")
      ∈ build_relevance_matrix
        [⟨"A", "git status", 80, 24, 0, 0, false, "", ""⟩,
         ⟨"B", "ls -la", 80, 24, 80, 0, false, "", ""⟩]) := by
  have h := c9_relevance_symmetric "git status" "ls -la" "A" "B"
    [⟨"A", "git status", 80, 24, 0, 0, false, "", ""⟩,
     ⟨"B", "ls -la", 80, 24, 80, 0, false, "", ""⟩]
    ⟨"A", "git status", 80, 24, 0, 0, false, "", ""⟩
    ⟨"B", "ls -la", 80, 24, 80, 0, false, "", ""⟩
    (by decide)
  exact ⟨by decide, h.2.1, h.2.2⟩

/-! ## Claims C5 and C10 -/

theorem calculate_entropy_nonneg {α : Type} [DecidableEq α] (items : List α) :
    0 ≤ calculate_entropy items := by
  unfold calculate_entropy
  by_cases hemp : items.isEmpty
  · rw [if_pos hemp]
  · rw [if_neg hemp]
    have hlen : 0 < items.length := by
      cases items with
      | nil => simp at hemp
      | cons a t => simp
    apply List.sum_nonneg
    intro x hx
    rw [List.mem_map] at hx
    obtain ⟨y, _, rfl⟩ := hx
    dsimp only
    by_cases hcnt : 0 < items.count y
    · rw [if_pos hcnt]
      have hp0 : (0 : ℝ) ≤ (items.count y : ℝ) / (items.length : ℝ) := by positivity
      have hp1 : (items.count y : ℝ) / (items.length : ℝ) ≤ 1 := by
        rw [div_le_one (by exact_mod_cast hlen)]
        exact_mod_cast List.count_le_length y items
      have hlog := Real.logb_nonpos (by norm_num : (1 : ℝ) < 2) hp0 hp1
      have hmul := mul_nonpos_of_nonneg_of_nonpos hp0 hlog
      linarith
    · rw [if_neg hcnt]

theorem context_total_pos {words : List String} {k i : ℕ}
    (hi : i ∈ (List.range (words.length - k)).filter
      (fun i => decide (0 < context_total words k (ngram_context words k i)))) :
    0 < context_total words k (ngram_context words k i) := by
  have := (List.mem_filter.mp hi).2
  exact of_decide_eq_true this

theorem context_word_count_le (words : List String) (k : ℕ) (ctx : List String) (w : String) :
    context_word_count words k ctx w ≤ context_total words k ctx := by
  unfold context_word_count context_total
  rw [← List.countP_eq_length_filter, ← List.countP_eq_length_filter]
  apply List.countP_mono_left
  intro j _ hj
  rw [decide_eq_true_eq] at hj ⊢
  exact hj.1

theorem calculate_surprisal_bounds (k : ℕ) (text : String) :
    0 ≤ calculate_surprisal k text ∧ calculate_surprisal k text ≤ 1 := by
  unfold calculate_surprisal
  by_cases hshort : (tokenize text).length < k + 1
  · rw [if_pos hshort]
    norm_num
  · rw [if_neg hshort]
    dsimp only
    by_cases hzero : ((List.range ((tokenize text).length - k)).filter
        (fun i => decide (0 < context_total (tokenize text) k
          (ngram_context (tokenize text) k i)))).length = 0
    · rw [if_pos hzero]
      norm_num
    · rw [if_neg hzero]
      have hsum : 0 ≤ (((List.range ((tokenize text).length - k)).filter
          (fun i => decide (0 < context_total (tokenize text) k
            (ngram_context (tokenize text) k i)))).map (fun i =>
          let ctx := ngram_context (tokenize text) k i
          let total := context_total (tokenize text) k ctx
          let c := context_word_count (tokenize text) k ctx (ngram_next (tokenize text) k i)
          let word_cnt := if c = 0 then 1 else c
          let prob : ℝ := (word_cnt : ℝ) / (total : ℝ)
          if 0 < prob then -Real.logb 2 prob else 10)).sum := by
        apply List.sum_nonneg
        intro x hx
        rw [List.mem_map] at hx
        obtain ⟨i, hi, rfl⟩ := hx
        have htot : 0 < context_total (tokenize text) k
            (ngram_context (tokenize text) k i) := context_total_pos hi
        dsimp only
        by_cases hp : (0 : ℝ) < ((if context_word_count (tokenize text) k
              (ngram_context (tokenize text) k i)
              (ngram_next (tokenize text) k i) = 0 then 1
            else context_word_count (tokenize text) k (ngram_context (tokenize text) k i)
              (ngram_next (tokenize text) k i) : ℕ) : ℝ)
            / ((context_total (tokenize text) k (ngram_context (tokenize text) k i) : ℕ) : ℝ)
        · rw [if_pos hp]
          have hle1 : ((if context_word_count (tokenize text) k
                (ngram_context (tokenize text) k i)
                (ngram_next (tokenize text) k i) = 0 then 1
              else context_word_count (tokenize text) k (ngram_context (tokenize text) k i)
                (ngram_next (tokenize text) k i) : ℕ))
              ≤ context_total (tokenize text) k (ngram_context (tokenize text) k i) := by
            by_cases hc : context_word_count (tokenize text) k
                (ngram_context (tokenize text) k i) (ngram_next (tokenize text) k i) = 0
            · rw [if_pos hc]
              omega
            · rw [if_neg hc]
              exact context_word_count_le _ _ _ _
          have hprob1 : ((if context_word_count (tokenize text) k
                (ngram_context (tokenize text) k i)
                (ngram_next (tokenize text) k i) = 0 then 1
              else context_word_count (tokenize text) k (ngram_context (tokenize text) k i)
                (ngram_next (tokenize text) k i) : ℕ) : ℝ)
              / ((context_total (tokenize text) k (ngram_context (tokenize text) k i) : ℕ) : ℝ)
              ≤ 1 := by
            rw [div_le_one (by exact_mod_cast htot)]
            exact_mod_cast hle1
          have := Real.logb_nonpos (by norm_num : (1 : ℝ) < 2) (le_of_lt hp) hprob1
          linarith
        · rw [if_neg hp]
          norm_num
      constructor
      · apply le_min (by norm_num)
        apply div_nonneg (div_nonneg hsum (by positivity)) (by norm_num)
      · exact min_le_left _ _

theorem detect_activity_bounds (content : String) :
    0 ≤ detect_activity content ∧ detect_activity content ≤ 1 := by
  unfold detect_activity
  by_cases hemp : (py_lines content).isEmpty
  · rw [if_pos hemp]
    norm_num
  · rw [if_neg hemp]
    refine ⟨le_min (by norm_num) (by positivity), min_le_left _ _⟩

/-- C5: every score field returned by `analyze` — `surprisal_score`,
`recent_activity_score`, `importance_score`, `interestingness_score` — lies
in the closed interval [0, 1], for every content, pane id, n-gram size,
hash function and prior history state. -/
theorem c5_analyze_scores_bounded (hash_fn : String → String) (ngram_size : ℕ)
    (content_history : String → List String) (content pane_id : String) :
    (0 ≤ (analyze hash_fn ngram_size content_history content pane_id).1.surprisal_score ∧
      (analyze hash_fn ngram_size content_history content pane_id).1.surprisal_score ≤ 1) ∧
    (0 ≤ (analyze hash_fn ngram_size content_history content pane_id).1.recent_activity_score ∧
      (analyze hash_fn ngram_size content_history content pane_id).1.recent_activity_score ≤ 1) ∧
    (0 ≤ (analyze hash_fn ngram_size content_history content pane_id).1.importance_score ∧
      (analyze hash_fn ngram_size content_history content pane_id).1.importance_score ≤ 1) ∧
    (0 ≤ (analyze hash_fn ngram_size content_history content pane_id).1.interestingness_score ∧
      (analyze hash_fn ngram_size content_history content pane_id).1.interestingness_score ≤ 1) := by
  unfold analyze
  by_cases hw : (tokenize content).isEmpty
  · rw [if_pos hw]
    dsimp only
    norm_num
  · rw [if_neg hw]
    dsimp only
    obtain ⟨hs0, hs1⟩ := calculate_surprisal_bounds ngram_size content
    obtain ⟨ha0, ha1⟩ := detect_activity_bounds content
    refine ⟨⟨hs0, hs1⟩, ⟨ha0, ha1⟩, ⟨?_, min_le_left _ _⟩, ⟨?_, min_le_left _ _⟩⟩
    · apply le_min (by norm_num)
      refine add_nonneg (add_nonneg (add_nonneg (add_nonneg (add_nonneg ?_ ?_) ?_) ?_) ?_) ?_
      · exact mul_nonneg (by norm_num) (le_min (by norm_num) (by positivity))
      · exact mul_nonneg (by norm_num) ha0
      · positivity
      · positivity
      · apply mul_nonneg (by norm_num)
        split
        · norm_num
        · norm_num
      · exact mul_nonneg (by norm_num) (le_min (by norm_num)
          (div_nonneg (calculate_entropy_nonneg _) (by norm_num)))
    · apply le_min (by norm_num)
      refine add_nonneg (add_nonneg (add_nonneg ?_ ?_) ?_) ?_
      · exact mul_nonneg (by norm_num) hs0
      · exact mul_nonneg (by norm_num) (le_max_left 0 _)
      · positivity
      · exact mul_nonneg (by norm_num) ha0

/-- C10, amended: for every call of `analyze` with a non-empty pane id and
content that tokenizes to at least one token, the hash of the content is the
last entry of that pane's history afterwards; the updated history is a
suffix of the old history plus the new hash (oldest entries dropped first);
and if every history list had at most 10 entries before the call, every one
still does after (a call whose content yields no tokens returns early and
leaves the history untouched). -/
theorem c10_bounded_history (hash_fn : String → String) (ngram_size : ℕ)
    (content_history : String → List String) (content pane_id : String)
    (hpid : pane_id ≠ "") (htok : ¬ (tokenize content).isEmpty)
    (hbound : ∀ p, (content_history p).length ≤ 10) :
    (((analyze hash_fn ngram_size content_history content pane_id).2 pane_id).getLast?
        = some (hash_fn content)) ∧
    (∀ p, ((analyze hash_fn ngram_size content_history content pane_id).2 p).length ≤ 10) ∧
    ((analyze hash_fn ngram_size content_history content pane_id).2 pane_id)
      <:+ (content_history pane_id ++ [hash_fn content]) := by
  unfold analyze
  rw [if_neg htok]
  dsimp only
  rw [if_pos hpid]
  have hk : (content_history pane_id ++ [hash_fn content]).length - 10
      ≤ (content_history pane_id).length := by
    rw [List.length_append, List.length_singleton]
    omega
  refine ⟨?_, ?_, ?_⟩
  · rw [if_pos rfl, List.drop_append_of_le_length hk]
    exact List.getLast?_concat _
  · intro p
    by_cases hp : p = pane_id
    · rw [if_pos hp]
      rw [List.length_drop]
      omega
    · rw [if_neg hp]
      exact hbound p
  · rw [if_pos rfl]
    exact List.drop_suffix _ _

/-- C10, counterexample: `analyze` returns before touching the history when
the content tokenizes to nothing (`if not words` guard), so after analyzing
the empty string the pane's history is still empty and its last entry is not
the content hash. -/
theorem c10_counterexample :
    ¬ ((((analyze (fun _ => "h") 3 (fun _ => []) "" "p").2) "p").getLast? = some "h") := by
  decide

/-- C10 witness: analyzing "git status" for pane "p" starting from an empty
history leaves the content hash as the last (and only) entry. -/
theorem c10_witness :
    ("p" : String) ≠ "" ∧ ¬ (tokenize "git status").isEmpty ∧
    (∀ p : String, ((fun _ => ([] : List String)) p).length ≤ 10) ∧
    (((analyze (fun s => s) 3 (fun _ => []) "git status" "p").2 "p").getLast?
        = some "git status") := by
  refine ⟨by decide, by decide, fun p => by simp, ?_⟩
  exact (c10_bounded_history (fun s => s) 3 (fun _ => []) "git status" "p"
    (by decide) (by decide) (fun p => by simp)).1
